import Mathlib

set_option autoImplicit false

/-!
Verification of the enkit `lib/config` configuration-store subsystem.

Go strings are byte sequences, so keys, stored names and payloads are
modelled as `List Nat` of byte values. Machine bytes only ever arise from
hex-digit arithmetic on values below 256, so plain `Nat` arithmetic is exact.
-/

namespace Enkit

/-- A Go string / byte slice: a list of byte values. -/
abbrev GoStr := List Nat

/-! ## Key codec

Embedded from `EncodeKey` / `DecodeKey` / `toHex` / `fromHex` in the
`config` package (keycodec file).
-/

/-- `toHex` from the source: maps a nibble value to the byte of its
uppercase hex digit (`'0'` = 48, `'A'` = 65). -/
def toHex (v : Nat) : Nat :=
  if v < 10 then 48 + v else 65 + (v - 10)

/-- `fromHex` from the source: decodes one hex-digit byte, accepting
`0-9`, `a-f` and `A-F`; the Go `(byte, bool)` pair becomes an `Option`. -/
def fromHex (b : Nat) : Option Nat :=
  if 48 ≤ b ∧ b ≤ 57 then some (b - 48)
  else if 97 ≤ b ∧ b ≤ 102 then some (b - 97 + 10)
  else if 65 ≤ b ∧ b ≤ 70 then some (b - 65 + 10)
  else none

/-- One step of `EncodeKey`'s loop: `'/'` (47), `'%'` (37) and NUL (0) are
written as `%XX` with uppercase hex (`b >> 4` is `b / 16`, `b & 0x0f` is
`b % 16`); every other byte passes through. -/
def encodeByte (b : Nat) : GoStr :=
  if b = 47 ∨ b = 37 ∨ b = 0 then [37, toHex (b / 16), toHex (b % 16)] else [b]

/-- `EncodeKey` from the source: escapes only `'/'`, `'%'` and NUL. -/
def EncodeKey : GoStr → GoStr
  | [] => []
  | b :: rest => encodeByte b ++ EncodeKey rest

/-- `DecodeKey` from the source: scans for `'%'` followed by two hex
digits and replaces the triplet by the decoded byte (`hi*16 + lo` is
`(hi << 4) | lo` for nibbles); on any failure the `'%'` byte is written
out and scanning resumes at the next byte (`i` advances by one). -/
def DecodeKey : GoStr → GoStr
  | [] => []
  | c :: rest =>
    if c = 37 then
      match rest with
      | c1 :: c2 :: rest2 =>
        match fromHex c1 with
        | none => c :: DecodeKey (c1 :: c2 :: rest2)
        | some hi =>
          match fromHex c2 with
          | none => c :: DecodeKey (c1 :: c2 :: rest2)
          | some lo => (hi * 16 + lo) :: DecodeKey rest2
      | [c1] => c :: DecodeKey [c1]
      | [] => [c]
    else c :: DecodeKey rest

/-! ## Error model

Go `error` values as the store subsystem distinguishes them: the normalized
not-found sentinel `os.ErrNotExist`, API usage errors, serialization and
backend failures (tagged with an opaque code), `fmt.Errorf`-style wrapping
with the offending name, and the aggregate produced by `multierror.New`.
-/

/-- Error values returned by loaders, marshallers and stores. -/
inductive GoErr where
  | notExist : GoErr
  | usage (msg : String) : GoErr
  | decodeFail (code : Nat) : GoErr
  | backend (code : Nat) : GoErr
  | wrapped (name : GoStr) (e : GoErr) : GoErr
  | multi (es : List GoErr) : GoErr

/-- `os.IsNotExist`: recognizes the normalized not-found sentinel. -/
def GoErr.isNotExist : GoErr → Bool
  | .notExist => true
  | _ => false

/-- Modelled from the spec: `multierror.New` (package `lib/multierror`, whose
source is not in the subset) combines the collected errors into one aggregate
error exposing each constituent (§7 "Aggregate error"); an empty list yields
no error (`nil`), as `MultiFormat.Delete`'s success path requires. -/
def multierrorNew : List GoErr → Option GoErr
  | [] => none
  | es => some (.multi es)

/-! ## Marshallers, key codecs and loaders

`marshal.FileMarshaller` and the `config.Loader` / `config.Descriptor`
interfaces are declared outside the source subset; their shapes are fixed by
the calls in `MultiFormat` / `SimpleStore` and by the spec (§3, §4.2, §4.3).
A marshaller's `Unmarshal` mutates its destination in Go, so it is embedded
as a state transformer returning the new destination plus an optional error.
-/

/-- A serialization format: canonical extension, encoder, decoder. -/
structure FileMarshaller (V : Type) where
  Extension : GoStr
  Marshal : V → Except GoErr GoStr
  Unmarshal : GoStr → V → V × Option GoErr

/-- The key encoder/decoder pair a store is configured with. -/
structure KeyCodec where
  Encode : GoStr → GoStr
  Decode : GoStr → GoStr

/-- `DefaultKeyCodec` from the source: the standard `EncodeKey`/`DecodeKey`
pair installed by `defaultStoreOptions`. -/
def DefaultKeyCodec : KeyCodec := ⟨EncodeKey, DecodeKey⟩

/-- The byte-level backend interface (`config.Loader`): list/read/write/delete
over stored names. Go methods mutate the backend, so each operation takes and
returns an explicit backend state `σ`. (The `List` method is called
`ListNames` because `List` is taken in Lean.) -/
structure Loader (σ : Type) where
  ListNames : σ → Except GoErr (List GoStr)
  Read : σ → GoStr → Except GoErr GoStr
  Write : σ → GoStr → GoStr → σ × Option GoErr
  Delete : σ → GoStr → σ × Option GoErr

/-- `config.Descriptor` as reachable through the public constructors:
`Key(k)` (a bare logical name) or `FormatKey(k, m)` (a `*multiDescriptor`
with a non-nil marshaller). A nil Go descriptor is not representable; the
corresponding usage-error branches guard a case this embedding rules out by
typing. -/
inductive Descriptor (V : Type) where
  | key (k : GoStr)
  | formatKey (m : FileMarshaller V) (k : GoStr)

/-- `Descriptor.Key()`: the logical name, without any format suffix. -/
def Descriptor.keyOf {V : Type} : Descriptor V → GoStr
  | .key k => k
  | .formatKey _ k => k

/-- `strings.TrimSuffix`: drops `suffix` when `s` ends with it. -/
def trimSuffix (s suffix : GoStr) : GoStr :=
  if suffix.isSuffixOf s then s.take (s.length - suffix.length) else s

/-! ## MultiFormat store (first file of the `config` package sources) -/

/-- `MultiFormat`: a loader, an ordered marshaller list (first = preferred)
and a key codec. -/
structure MultiFormat (σ V : Type) where
  loader : Loader σ
  marshaller : List (FileMarshaller V)
  keyCodec : KeyCodec

/-- `MultiFormat.pathForKey`: encoded key, plus `"." + ext` when a
marshaller is given (46 is `'.'`). -/
def MultiFormat.pathForKey {σ V : Type} (ss : MultiFormat σ V) (key : GoStr)
    (m : Option (FileMarshaller V)) : GoStr :=
  let encoded := ss.keyCodec.Encode key
  match m with
  | none => encoded
  | some m => encoded ++ [46] ++ m.Extension

/-- The `load` closure inside `MultiFormat.Unmarshal`: read the backing
entry; on read error return it; otherwise build the result descriptor from
the trimmed, decoded path, succeed immediately on a zero-length payload, and
otherwise run the marshaller's decoder on the destination. -/
def MultiFormat.load {σ V : Type} (ss : MultiFormat σ V) (st : σ)
    (m : FileMarshaller V) (path : GoStr) (v : V) :
    Option (FileMarshaller V × GoStr) × V × Option GoErr :=
  match ss.loader.Read st path with
  | .error e => (none, v, some e)
  | .ok data =>
    let key := ss.keyCodec.Decode (trimSuffix path ([46] ++ m.Extension))
    if data.length = 0 then (some (m, key), v, none)
    else
      let r := m.Unmarshal data v
      (some (m, key), r.1, r.2)

/-- The `Key` branch loop of `MultiFormat.Unmarshal`: try each marshaller in
list order, returning on the first `load` that reports no error; the
`result`/`err` accumulators carry the previous iteration's outcome and are
returned when the list is exhausted. -/
def MultiFormat.unmarshalLoop {σ V : Type} (ss : MultiFormat σ V) (st : σ)
    (key : GoStr) :
    List (FileMarshaller V) → V → Option (FileMarshaller V × GoStr) →
      Option GoErr → Option (FileMarshaller V × GoStr) × V × Option GoErr
  | [], v, result, err => (result, v, err)
  | m :: rest, v, _, _ =>
    let path := ss.pathForKey key (some m)
    let r := ss.load st m path v
    match r.2.2 with
    | none => (r.1, r.2.1, none)
    | some e => ss.unmarshalLoop st key rest r.2.1 r.1 (some e)

/-- `MultiFormat.Unmarshal`: format resolution for a bare `Key`, direct load
for a `FormatKey`. Returns (descriptor, destination, error). -/
def MultiFormat.Unmarshal {σ V : Type} (ss : MultiFormat σ V) (st : σ)
    (desc : Descriptor V) (v : V) :
    Option (FileMarshaller V × GoStr) × V × Option GoErr :=
  match desc with
  | .key k => ss.unmarshalLoop st k ss.marshaller v none none
  | .formatKey m k => ss.load st m (ss.pathForKey k (some m)) v

/-- `MultiFormat.Marshal`: a bare `Key` writes with the first (preferred)
marshaller; a `FormatKey` writes with exactly its marshaller. (Go would
panic indexing `marshaller[0]` on an empty list; that corner is mapped to a
usage error.) -/
def MultiFormat.Marshal {σ V : Type} (ss : MultiFormat σ V) (st : σ)
    (desc : Descriptor V) (value : V) : σ × Option GoErr :=
  match desc with
  | .key k =>
    match ss.marshaller with
    | [] => (st, some (.usage ("index out of range")))
    | m0 :: _ =>
      let name := ss.pathForKey k (some m0)
      match m0.Marshal value with
      | .error e => (st, some e)
      | .ok data => ss.loader.Write st name data
  | .formatKey m k =>
    let name := ss.pathForKey k (some m)
    match m.Marshal value with
    | .error e => (st, some e)
    | .ok data => ss.loader.Write st name data

/-- The `Key` branch loop of `MultiFormat.Delete`: delete the backing entry
for every marshaller in order, counting not-found results and collecting the
remaining errors wrapped with the offending name, in iteration order. -/
def MultiFormat.deleteLoop {σ V : Type} (ss : MultiFormat σ V) (key : GoStr) :
    List (FileMarshaller V) → σ → σ × Nat × List GoErr
  | [], st => (st, 0, [])
  | m :: rest, st =>
    let fullname := ss.pathForKey key (some m)
    let r := ss.loader.Delete st fullname
    let res := ss.deleteLoop key rest r.1
    match r.2 with
    | none => res
    | some e =>
      if e.isNotExist then (res.1, res.2.1 + 1, res.2.2)
      else (res.1, res.2.1, GoErr.wrapped fullname e :: res.2.2)

/-- `MultiFormat.Delete`: a `FormatKey` deletes only its format's entry; a
bare `Key` runs the loop over every configured marshaller, answers
`os.ErrNotExist` when all attempted deletions reported not-found, and
otherwise the `multierror` aggregate of the collected errors. -/
def MultiFormat.Delete {σ V : Type} (ss : MultiFormat σ V) (st : σ)
    (desc : Descriptor V) : σ × Option GoErr :=
  match desc with
  | .formatKey m k => ss.loader.Delete st (ss.pathForKey k (some m))
  | .key k =>
    let res := ss.deleteLoop k ss.marshaller st
    (res.1,
     if res.2.1 = ss.marshaller.length then some .notExist
     else multierrorNew res.2.2)

/-! ## SimpleStore (keycodec-aware version in the `config` package sources) -/

/-- `SimpleStore`: one fixed marshaller over a loader. -/
structure SimpleStore (σ V : Type) where
  loader : Loader σ
  marshaller : FileMarshaller V
  keyCodec : KeyCodec

/-- `SimpleStore.pathForKey`: encoded key plus the marshaller's extension. -/
def SimpleStore.pathForKey {σ V : Type} (ss : SimpleStore σ V) (key : GoStr) :
    GoStr :=
  ss.keyCodec.Encode key ++ [46] ++ ss.marshaller.Extension

/-- `SimpleStore.Unmarshal`: read the entry for the descriptor's key; a
zero-length payload succeeds without touching the destination; otherwise the
marshaller's decoder runs. Returns (returned key, destination, error). -/
def SimpleStore.Unmarshal {σ V : Type} (ss : SimpleStore σ V) (st : σ)
    (desc : Descriptor V) (v : V) : GoStr × V × Option GoErr :=
  let key := desc.keyOf
  let path := ss.pathForKey key
  match ss.loader.Read st path with
  | .error e => (key, v, some e)
  | .ok data =>
    if data.length = 0 then (key, v, none)
    else
      let r := ss.marshaller.Unmarshal data v
      (key, r.1, r.2)

/-! ## An in-memory directory-style loader

Modelled from the spec: the directory backend's `Loader` (spec §4.3, §6; the
`lib/config/directory` package is outside the source subset) as an in-memory
map from stored name to payload — `Read`/`Delete` fail with the not-found
sentinel when the name is absent, `Write` is create-or-overwrite, `List`
returns the stored names. -/
abbrev StoreMap := List (GoStr × GoStr)

/-- First payload stored under `name`, if any. -/
def lookupName : StoreMap → GoStr → Option GoStr
  | [], _ => none
  | (n, d) :: rest, name => if n = name then some d else lookupName rest name

/-- Remove every entry stored under `name`. -/
def eraseName : StoreMap → GoStr → StoreMap
  | [], _ => []
  | (n, d) :: rest, name =>
    if n = name then eraseName rest name else (n, d) :: eraseName rest name

/-- Modelled from the spec: the directory backend loader over `StoreMap`. -/
def dirLoader : Loader StoreMap where
  ListNames st := .ok (st.map (·.1))
  Read st name :=
    match lookupName st name with
    | some d => .ok d
    | none => .error .notExist
  Write st name data := ((name, data) :: eraseName st name, none)
  Delete st name :=
    match lookupName st name with
    | some _ => (eraseName st name, none)
    | none => (st, some .notExist)

/-! ## Lexicographic order on byte strings

SQLite's `ORDER BY name` and bbolt's cursor both present names in
lexicographic byte order; an insertion sort over that order models it. -/

/-- Lexicographic byte-order comparison. -/
def lexLe : GoStr → GoStr → Bool
  | [], _ => true
  | _ :: _, [] => false
  | a :: as, b :: bs => if a < b then true else if b < a then false else lexLe as bs

/-- Insert into a lexicographically sorted list. -/
def insertLex (x : GoStr) : List GoStr → List GoStr
  | [] => [x]
  | y :: ys => if lexLe x y then x :: y :: ys else y :: insertLex x ys

/-- Sort names in lexicographic byte order. -/
def sortLex : List GoStr → List GoStr
  | [] => []
  | x :: xs => insertLex x (sortLex xs)

/-- `storeScope` from `sqlite.go` / `bbolt.go`: app and namespaces joined
with `"/"`. -/
def storeScope (app : String) (namespaces : List String) : String :=
  String.intercalate "/" (app :: namespaces)

/-! ## SQLite loader (`lib/config/sqlite/sqlite.go`)

The `configs` table (`PRIMARY KEY (scope, name)`) is a list of
`(scope, name, data)` rows; the SQL engine itself is external, so the four
prepared statements become functions of the row list: `List` filters by
scope and sorts by name (`ORDER BY name`), `Read` maps `sql.ErrNoRows` to
`os.ErrNotExist`, `Write` is the upsert, `Delete` reports `os.ErrNotExist`
exactly when no row was affected. -/
abbrev SqliteDB := List (String × GoStr × GoStr)

/-- Rows of one scope, in table order. -/
def sqliteRowsForScope : SqliteDB → String → SqliteDB
  | [], _ => []
  | (s, n, d) :: rest, scope =>
    if s = scope then (s, n, d) :: sqliteRowsForScope rest scope
    else sqliteRowsForScope rest scope

/-- The row keyed `(scope, name)`, if present. -/
def sqliteLookup : SqliteDB → String → GoStr → Option GoStr
  | [], _, _ => none
  | (s, n, d) :: rest, scope, name =>
    if s = scope ∧ n = name then some d else sqliteLookup rest scope name

/-- `Loader.List`: `SELECT name … WHERE scope = ? ORDER BY name`. -/
def sqliteList (db : SqliteDB) (scope : String) : List GoStr :=
  sortLex ((sqliteRowsForScope db scope).map (fun r => r.2.1))

/-- `Loader.Read`: no matching row becomes `os.ErrNotExist`. -/
def sqliteRead (db : SqliteDB) (scope : String) (name : GoStr) :
    Except GoErr GoStr :=
  match sqliteLookup db scope name with
  | some d => .ok d
  | none => .error .notExist

/-- `Loader.Write`: `INSERT … ON CONFLICT(scope, name) DO UPDATE`. -/
def sqliteWrite (db : SqliteDB) (scope : String) (name data : GoStr) :
    SqliteDB :=
  if (sqliteLookup db scope name).isSome then
    db.map (fun r => if r.1 = scope ∧ r.2.1 = name then (r.1, r.2.1, data) else r)
  else db ++ [(scope, name, data)]

/-- The rows surviving `DELETE … WHERE scope = ? AND name = ?`. -/
def sqliteRemove : SqliteDB → String → GoStr → SqliteDB
  | [], _, _ => []
  | (s, n, d) :: rest, scope, name =>
    if s = scope ∧ n = name then sqliteRemove rest scope name
    else (s, n, d) :: sqliteRemove rest scope name

/-- `Loader.Delete`: `DELETE … WHERE scope = ? AND name = ?`; zero affected
rows becomes `os.ErrNotExist`. -/
def sqliteDelete (db : SqliteDB) (scope : String) (name : GoStr) :
    SqliteDB × Option GoErr :=
  let remaining := sqliteRemove db scope name
  if remaining.length = db.length then (db, some .notExist)
  else (remaining, none)

/-- `SQLiteStore.Unmarshal`: read the raw name from the scoped loader; an
empty payload succeeds untouched; otherwise run `json.Unmarshal`, which is
external and therefore a decoder parameter `dec`. -/
def sqliteStoreUnmarshal {V : Type} (dec : GoStr → V → V × Option GoErr)
    (db : SqliteDB) (scope : String) (name : GoStr) (v : V) :
    Option GoStr × V × Option GoErr :=
  match sqliteRead db scope name with
  | .error e => (none, v, some e)
  | .ok data =>
    if data.length = 0 then (some name, v, none)
    else
      let r := dec data v
      (some name, r.1, r.2)

/-! ## bbolt loader (`lib/config/bbolt/bbolt.go`)

One bucket per scope string; `Get` answers `nil` exactly for absent keys,
which `Read`/`Delete` turn into `os.ErrNotExist`; an absent bucket does the
same. `Write` is `CreateBucketIfNotExists` followed by `Put`. -/
abbrev Bucket := List (GoStr × GoStr)

/-- bbolt buckets of a database file, keyed by bucket name (the scope). -/
abbrev BoltDB := List (String × Bucket)

/-- `tx.Bucket`: the bucket named `scope`, if it exists. -/
def boltGetBucket : BoltDB → String → Option Bucket
  | [], _ => none
  | (s, b) :: rest, scope => if s = scope then some b else boltGetBucket rest scope

/-- Replace the bucket named `scope`, creating it if absent
(`CreateBucketIfNotExists`). -/
def boltSetBucket : BoltDB → String → Bucket → BoltDB
  | [], scope, nb => [(scope, nb)]
  | (s, b) :: rest, scope, nb =>
    if s = scope then (s, nb) :: rest else (s, b) :: boltSetBucket rest scope nb

/-- `bucket.Put`: create-or-overwrite one key inside a bucket. -/
def bucketPut : Bucket → GoStr → GoStr → Bucket
  | [], name, data => [(name, data)]
  | (n, d) :: rest, name, data =>
    if n = name then (n, data) :: rest else (n, d) :: bucketPut rest name data

/-- `Loader.List`: a missing bucket lists nothing; otherwise the bucket's
keys in byte order (`ForEach` follows the cursor; values here are never the
nil tombstones the Go code skips). -/
def boltList (db : BoltDB) (scope : String) : Except GoErr (List GoStr) :=
  match boltGetBucket db scope with
  | none => .ok []
  | some b => .ok (sortLex (b.map (·.1)))

/-- `Loader.Read`: absent bucket or absent key becomes `os.ErrNotExist`. -/
def boltRead (db : BoltDB) (scope : String) (name : GoStr) :
    Except GoErr GoStr :=
  match boltGetBucket db scope with
  | none => .error .notExist
  | some b =>
    match lookupName b name with
    | none => .error .notExist
    | some v => .ok v

/-- `Loader.Write`: `CreateBucketIfNotExists` then `Put`. -/
def boltWrite (db : BoltDB) (scope : String) (name data : GoStr) : BoltDB :=
  let b := (boltGetBucket db scope).getD []
  boltSetBucket db scope (bucketPut b name data)

/-- `Loader.Delete`: absent bucket or absent key (`Get` returning nil)
becomes `os.ErrNotExist`; otherwise the key is removed. -/
def boltDelete (db : BoltDB) (scope : String) (name : GoStr) :
    BoltDB × Option GoErr :=
  match boltGetBucket db scope with
  | none => (db, some .notExist)
  | some b =>
    match lookupName b name with
    | none => (db, some .notExist)
    | some _ => (boltSetBucket db scope (eraseName b name), none)

/-- `BoltStore.Unmarshal`: read the descriptor's raw key from the scoped
loader; an empty payload succeeds untouched; otherwise run
`json.Unmarshal` (external, the decoder parameter `dec`). -/
def boltStoreUnmarshal {V : Type} (dec : GoStr → V → V × Option GoErr)
    (db : BoltDB) (scope : String) (desc : Descriptor V) (v : V) :
    Option GoStr × V × Option GoErr :=
  let name := desc.keyOf
  match boltRead db scope name with
  | .error e => (none, v, some e)
  | .ok data =>
    if data.length = 0 then (some name, v, none)
    else
      let r := dec data v
      (some name, r.1, r.2)

/-! ## Factory (`lib/config/factory/factory.go`)

Only the validation logic the factory itself performs is relevant here; the
filesystem open (`directory.OpenDir` / `OpenHomeDir`), `datastore.New` and
`sqlite.New` are external to the subset and are modelled as succeeding, as
noted on `factoryNew`. The store a successful open would produce is
abstracted to its kind. -/

/-- The flag fields `factory.New` inspects (`Flags`; the SQLite sub-flags
are passed through to `sqlite.New` unvalidated and are omitted). -/
structure FactoryFlags where
  StoreType : String
  DatastoreProject : String
  DirectoryPath : String
  DirectoryMode : String
  DirectoryFormat : String

/-- Modelled from the spec: the four members of `marshal.Known` (package
`lib/config/marshal` is outside the subset), identified by name. -/
inductive MarshalFmt where
  | toml
  | json
  | yaml
  | gob
deriving DecidableEq

/-- What kind of store an `Opener` call would produce. -/
inductive StoreKind where
  | datastoreStore
  | simpleStore (fmt : MarshalFmt)
  | multiStore
  | sqliteStore
deriving DecidableEq

/-- `directoryMarshaller` from `factory.go`: empty format defaults to
`"toml"`; the four known names map to their marshaller; anything else is the
"unknown directory format" usage error. -/
def directoryMarshaller (format : String) : Except GoErr MarshalFmt :=
  let format := if format = "" then "toml" else format
  if format = "toml" then .ok .toml
  else if format = "json" then .ok .json
  else if format = "yaml" then .ok .yaml
  else if format = "gob" then .ok .gob
  else .error (.usage ("unknown directory format: " ++ format))

/-- `factory.New`: resolves the backend selector eagerly; the returned
opener performs the directory mode/format validation when it is invoked.
`datastore.New`, `sqlite.New` and the directory open are outside the subset
and modelled as succeeding — no theorem below depends on those branches
beyond `New` itself returning an opener for them, which the Go code does
unconditionally for `"directory"` and `"sqlite"`. -/
def factoryNew (flags : FactoryFlags) :
    Except GoErr (String → List String → Except GoErr StoreKind) :=
  if flags.StoreType = "datastore" then
    .ok (fun _ _ => .ok .datastoreStore)
  else if flags.StoreType = "directory" then
    .ok (fun _ _ =>
      if flags.DirectoryMode = "" ∨ flags.DirectoryMode = "simple" then
        match directoryMarshaller flags.DirectoryFormat with
        | .error e => .error e
        | .ok m => .ok (.simpleStore m)
      else if flags.DirectoryMode = "multi" then
        if flags.DirectoryFormat ≠ "" then
          .error (.usage ("directory format is only valid for simple mode"))
        else .ok .multiStore
      else .error (.usage ("unknown directory mode: " ++ flags.DirectoryMode)))
  else if flags.StoreType = "sqlite" then
    .ok (fun _ _ => .ok .sqliteStore)
  else .error (.usage ("unknown config store type: " ++ flags.StoreType))

/-- `True` iff `factory.New` itself returned without error. -/
def factoryNewOk (flags : FactoryFlags) : Bool :=
  match factoryNew flags with
  | .ok _ => true
  | .error _ => false

/-- `factory.New` followed by one opener invocation (store construction). -/
def factoryOpen (flags : FactoryFlags) (name : String) (ns : List String) :
    Except GoErr StoreKind :=
  match factoryNew flags with
  | .error e => .error e
  | .ok op => op name ns

/-! ## Concrete fixtures

Small concrete marshallers, stores and backend states used to instantiate
the general theorems at explicit inputs. The destination type is a pair of
counters `Nat × Nat`, so a decoder can visibly touch one component. -/

/-- A marshaller (extension `"a"`, byte 97) whose decoder writes `5` into
the first component of the destination and then reports a decode error —
the partially-written destination persists, as with a mutating Go decoder. -/
def marshallerFailA : FileMarshaller (Nat × Nat) where
  Extension := [97]
  Marshal := fun _ => .ok [0]
  Unmarshal := fun _ v => ((5, v.2), some (.decodeFail 1))

/-- A marshaller (extension `"b"`, byte 98) whose decoder sets only the
second component to `7` and succeeds. -/
def marshallerOkB : FileMarshaller (Nat × Nat) where
  Extension := [98]
  Marshal := fun _ => .ok [0]
  Unmarshal := fun _ v => ((v.1, 7), none)

/-- A marshaller (extension `"c"`, byte 99) whose decoder is the identity. -/
def marshallerNopC : FileMarshaller (Nat × Nat) where
  Extension := [99]
  Marshal := fun _ => .ok [0]
  Unmarshal := fun _ v => (v, none)

/-- A two-format `MultiFormat` store over the in-memory directory loader,
listing the failing `"a"` format before the succeeding `"b"` format. -/
def mfFixture : MultiFormat StoreMap (Nat × Nat) :=
  ⟨dirLoader, [marshallerFailA, marshallerOkB], DefaultKeyCodec⟩

/-- Backend state holding only the `"b"`-format entry `"k.b"`. -/
def stB : StoreMap := [([107, 46, 98], [2])]

/-- Backend state holding both `"k.a"` and `"k.b"` with non-empty data. -/
def stAB : StoreMap := [([107, 46, 97], [1]), ([107, 46, 98], [2])]

/-- A loader test double whose `Delete` reports a backend failure for
`"k.a"`, not-found for `"k.b"`, and success otherwise. -/
def flakyLoader : Loader Unit where
  ListNames _ := .ok []
  Read _ _ := .error .notExist
  Write st _ _ := (st, none)
  Delete st name :=
    (st,
     if name = [107, 46, 97] then some (.backend 1)
     else if name = [107, 46, 98] then some .notExist
     else none)

/-- A three-format `MultiFormat` store over the flaky loader. -/
def mfFlaky : MultiFormat Unit (Nat × Nat) :=
  ⟨flakyLoader, [marshallerFailA, marshallerOkB, marshallerNopC], DefaultKeyCodec⟩

/-! ## Theorems -/

theorem decodeKey_cons_ne (c : Nat) (rest : GoStr) (hc : c ≠ 37) :
    DecodeKey (c :: rest) = c :: DecodeKey rest := by
  rw [DecodeKey.eq_def]
  simp [hc]

/-- C2: for every byte string `s` — including the empty string and strings
containing `'/'`, `'%'` and NUL bytes — `DecodeKey (EncodeKey s) = s`. -/
theorem decode_encode_roundtrip (s : GoStr) : DecodeKey (EncodeKey s) = s := by
  induction s with
  | nil => rfl
  | cons b rest ih =>
    by_cases hb : b = 47 ∨ b = 37 ∨ b = 0
    · rcases hb with hb | hb | hb <;> subst hb <;>
        simpa [EncodeKey, encodeByte, DecodeKey, fromHex, toHex] using ih
    · push_neg at hb
      obtain ⟨h1, h2, h3⟩ := hb
      have henc : EncodeKey (b :: rest) = b :: EncodeKey rest := by
        simp [EncodeKey, encodeByte, h1, h2, h3]
      rw [henc, decodeKey_cons_ne b _ h2, ih]

/-- C7 counterexample: in the input `"%%41"` (bytes `[37, 37, 52, 49]`) the
first `'%'` is not followed by two hex digits (`'%'` is not a hex digit), so
under the claim the `'%'` and the characters after it would be emitted
verbatim, yielding `"%%41"` again; the code instead emits only the first
`'%'` verbatim, re-scans from the second `'%'`, decodes the well-formed
`"%41"` and produces `"%A"` (`[37, 65]`). -/
theorem decode_malformed_counterexample :
    DecodeKey [37, 37, 52, 49] = [37, 65] ∧
    DecodeKey [37, 37, 52, 49] ≠ [37, 37, 52, 49] := by
  have h : DecodeKey [37, 37, 52, 49] = [37, 65] := by
    simp [DecodeKey.eq_def, fromHex]
  exact ⟨h, by rw [h]; decide⟩

/-- C7 (amended): `DecodeKey` is total on every input string, and whenever a
`'%'` is not followed by two hex digits, the `'%'` byte alone is emitted
verbatim and decoding resumes at the immediately following byte (which may
itself begin a valid escape); in particular a trailing `'%'`, a trailing
`"%X"`, and a malformed sequence such as `"%zz"` pass through unchanged. -/
theorem decode_malformed_percent_passthrough (c1 c2 : Nat) (rest : GoStr)
    (h : fromHex c1 = none ∨ fromHex c2 = none) :
    DecodeKey (37 :: c1 :: c2 :: rest) = 37 :: DecodeKey (c1 :: c2 :: rest) ∧
    DecodeKey [37] = [37] ∧
    DecodeKey [37, c1] = [37, c1] ∧
    DecodeKey [37, 122, 122] = [37, 122, 122] := by
  refine ⟨?_, by simp [DecodeKey.eq_def], ?_, by simp [DecodeKey.eq_def, fromHex]⟩
  · rw [DecodeKey.eq_def]
    rcases hh : fromHex c1 with _ | hi
    · simp [hh]
    · rcases h with h | h
      · rw [h] at hh
        exact Option.noConfusion hh
      · simp [hh, h]
  · have h1 : DecodeKey [c1] = [c1] := by
      by_cases hc : c1 = 37
      · subst hc
        simp [DecodeKey.eq_def]
      · rw [decodeKey_cons_ne c1 [] hc]
        rfl
    rw [DecodeKey.eq_def]
    simp [h1]

/-- C7 witness: the amended pass-through behavior at the concrete malformed
input `"%z2…"` (`c1 = 'z' = 122`). -/
theorem decode_malformed_percent_passthrough_witness :
    (fromHex 122 = none ∨ fromHex 50 = none) ∧
    (DecodeKey (37 :: 122 :: 50 :: [49]) = 37 :: DecodeKey (122 :: 50 :: [49]) ∧
     DecodeKey [37] = [37] ∧
     DecodeKey [37, 122] = [37, 122] ∧
     DecodeKey [37, 122, 122] = [37, 122, 122]) :=
  ⟨Or.inl (by decide),
   decode_malformed_percent_passthrough 122 50 [49] (Or.inl (by decide))⟩

/-- C5 counterexample: with `StoreType = "directory"` and the unknown
`DirectoryMode = "bogus"`, `factory.New` itself succeeds — the usage error
surfaces only when the returned opener is invoked — so the claim that
`factory.New` fails at construction time for every configuration carrying an
unknown directory mode is false at this input. -/
theorem factory_new_lazy_mode_counterexample :
    factoryNewOk ⟨"directory", "", "", "bogus", ""⟩ = true ∧
    factoryOpen ⟨"directory", "", "", "bogus", ""⟩ "app" ["ns"] =
      .error (.usage ("unknown directory mode: bogus")) := by
  constructor <;> rfl

/-- C5 (amended): an unknown backend selector makes `factory.New` fail at
construction with the descriptive usage error, and `New` succeeds for the
`"directory"` and `"sqlite"` selectors; an unknown directory mode, an
unknown directory format in simple mode, and a non-empty format in multi
mode are each reported with their descriptive usage error when the returned
opener is invoked — that is, at store construction, before any store
operation — not at `factory.New` time. -/
theorem factory_validation (flags : FactoryFlags) (nm : String)
    (ns : List String) :
    (flags.StoreType ≠ "datastore" → flags.StoreType ≠ "directory" →
      flags.StoreType ≠ "sqlite" →
      factoryNew flags =
        .error (.usage ("unknown config store type: " ++ flags.StoreType))) ∧
    (flags.StoreType = "directory" ∨ flags.StoreType = "sqlite" →
      factoryNewOk flags = true) ∧
    (flags.StoreType = "directory" → flags.DirectoryMode ≠ "" →
      flags.DirectoryMode ≠ "simple" → flags.DirectoryMode ≠ "multi" →
      factoryOpen flags nm ns =
        .error (.usage ("unknown directory mode: " ++ flags.DirectoryMode))) ∧
    (flags.StoreType = "directory" →
      (flags.DirectoryMode = "" ∨ flags.DirectoryMode = "simple") →
      flags.DirectoryFormat ≠ "" → flags.DirectoryFormat ≠ "toml" →
      flags.DirectoryFormat ≠ "json" → flags.DirectoryFormat ≠ "yaml" →
      flags.DirectoryFormat ≠ "gob" →
      factoryOpen flags nm ns =
        .error (.usage ("unknown directory format: " ++ flags.DirectoryFormat))) ∧
    (flags.StoreType = "directory" → flags.DirectoryMode = "multi" →
      flags.DirectoryFormat ≠ "" →
      factoryOpen flags nm ns =
        .error (.usage ("directory format is only valid for simple mode"))) := by
  refine ⟨?_, ?_, ?_, ?_, ?_⟩
  · intro h1 h2 h3
    simp [factoryNew, h1, h2, h3]
  · intro h
    rcases h with h | h <;> simp [factoryNewOk, factoryNew, h]
  · intro hdir hm1 hm2 hm3
    simp [factoryOpen, factoryNew, hdir, hm1, hm2, hm3]
  · intro hdir hmode hf0 hf1 hf2 hf3 hf4
    have hm : flags.DirectoryMode = "" ∨ flags.DirectoryMode = "simple" := hmode
    rcases hm with hm | hm <;>
      simp [factoryOpen, factoryNew, directoryMarshaller, hdir, hm, hf0, hf1,
        hf2, hf3, hf4]
  · intro hdir hm hf
    simp [factoryOpen, factoryNew, hdir, hm, hf]

/-- C5 witness: the amended behavior at concrete flag values — an unknown
selector rejected by `New`, `New` succeeding for `"sqlite"`, and the three
opener-time usage errors. -/
theorem factory_validation_witness :
    factoryNew ⟨"bolt", "", "", "", ""⟩ =
      .error (.usage ("unknown config store type: " ++ "bolt")) ∧
    factoryNewOk ⟨"sqlite", "", "", "", ""⟩ = true ∧
    factoryOpen ⟨"directory", "", "", "modeX", ""⟩ "app" [] =
      .error (.usage ("unknown directory mode: " ++ "modeX")) ∧
    factoryOpen ⟨"directory", "", "", "simple", "ini"⟩ "app" [] =
      .error (.usage ("unknown directory format: " ++ "ini")) ∧
    factoryOpen ⟨"directory", "", "", "multi", "toml"⟩ "app" [] =
      .error (.usage ("directory format is only valid for simple mode")) :=
  ⟨(factory_validation ⟨"bolt", "", "", "", ""⟩ "app" []).1
      (by decide) (by decide) (by decide),
   (factory_validation ⟨"sqlite", "", "", "", ""⟩ "app" []).2.1 (Or.inr rfl),
   (factory_validation ⟨"directory", "", "", "modeX", ""⟩ "app" []).2.2.1
      rfl (by decide) (by decide) (by decide),
   (factory_validation ⟨"directory", "", "", "simple", "ini"⟩ "app" []).2.2.2.1
      rfl (Or.inr rfl) (by decide) (by decide) (by decide) (by decide) (by decide),
   (factory_validation ⟨"directory", "", "", "multi", "toml"⟩ "app" []).2.2.2.2
      rfl rfl (by decide)⟩

theorem sqliteRemove_of_lookup_none (db : SqliteDB) (scope : String)
    (name : GoStr) (h : sqliteLookup db scope name = none) :
    sqliteRemove db scope name = db := by
  induction db with
  | nil => rfl
  | cons r rest ih =>
    obtain ⟨s, n, d⟩ := r
    rw [sqliteLookup] at h
    by_cases hc : s = scope ∧ n = name
    · rw [if_pos hc] at h
      cases h
    · rw [if_neg hc] at h
      rw [sqliteRemove, if_neg hc, ih h]

/-- C4: for both the SQLite and bbolt loaders, `Read` and `Delete` on an
absent name fail with the same normalized sentinel `os.ErrNotExist`,
recognizable via `os.IsNotExist`, independently of the backend. -/
theorem notfound_normalized (db : SqliteDB) (bdb : BoltDB) (scope : String)
    (name : GoStr)
    (hs : sqliteLookup db scope name = none)
    (hb : ∀ b, boltGetBucket bdb scope = some b → lookupName b name = none) :
    sqliteRead db scope name = .error .notExist ∧
    (sqliteDelete db scope name).2 = some .notExist ∧
    boltRead bdb scope name = .error .notExist ∧
    (boltDelete bdb scope name).2 = some .notExist ∧
    GoErr.notExist.isNotExist = true := by
  refine ⟨?_, ?_, ?_, ?_, rfl⟩
  · simp [sqliteRead, hs]
  · have hf := sqliteRemove_of_lookup_none db scope name hs
    simp [sqliteDelete, hf]
  · cases hbk : boltGetBucket bdb scope with
    | none => simp [boltRead, hbk]
    | some b => simp [boltRead, hbk, hb b hbk]
  · cases hbk : boltGetBucket bdb scope with
    | none => simp [boltDelete, hbk]
    | some b => simp [boltDelete, hbk, hb b hbk]

/-- C4 witness: the not-found sentinel at a concrete database, bucket file,
scope and absent name. -/
theorem notfound_normalized_witness :
    sqliteLookup [("app/ns", [110], [5])] "app/ns" [109] = none ∧
    (∀ b, boltGetBucket [("app/ns", [([110], [5])])] "app/ns" = some b →
      lookupName b [109] = none) ∧
    (sqliteRead [("app/ns", [110], [5])] "app/ns" [109] = .error .notExist ∧
     (sqliteDelete [("app/ns", [110], [5])] "app/ns" [109]).2 = some .notExist ∧
     boltRead [("app/ns", [([110], [5])])] "app/ns" [109] = .error .notExist ∧
     (boltDelete [("app/ns", [([110], [5])])] "app/ns" [109]).2 =
       some .notExist ∧
     GoErr.notExist.isNotExist = true) := by
  have h1 : sqliteLookup [("app/ns", [110], [5])] "app/ns" [109] = none := by
    decide
  have h2 : ∀ b, boltGetBucket [("app/ns", [([110], [5])])] "app/ns" = some b →
      lookupName b [109] = none := by
    intro b h
    simp [boltGetBucket] at h
    subst h
    decide
  exact ⟨h1, h2, notfound_normalized _ _ _ _ h1 h2⟩

theorem sqliteRows_map_upsert (db : SqliteDB) (s1 s2 : String) (n d : GoStr)
    (hne : s1 ≠ s2) :
    sqliteRowsForScope
      (db.map (fun r => if r.1 = s1 ∧ r.2.1 = n then (r.1, r.2.1, d) else r)) s2
      = sqliteRowsForScope db s2 := by
  induction db with
  | nil => rfl
  | cons r rest ih =>
    obtain ⟨s, nn, dd⟩ := r
    rw [List.map_cons]
    have hmap : (if (s, nn, dd).1 = s1 ∧ (s, nn, dd).2.1 = n
          then ((s, nn, dd).1, (s, nn, dd).2.1, d) else (s, nn, dd))
        = if s = s1 ∧ nn = n then (s, nn, d) else (s, nn, dd) := rfl
    rw [hmap]
    by_cases hc : s = s1 ∧ nn = n
    · rw [if_pos hc]
      have hs2 : ¬ s = s2 := fun h => hne (hc.1.symm.trans h)
      rw [sqliteRowsForScope, if_neg hs2, sqliteRowsForScope, if_neg hs2, ih]
    · rw [if_neg hc]
      by_cases hs : s = s2
      · rw [sqliteRowsForScope, if_pos hs, sqliteRowsForScope, if_pos hs, ih]
      · rw [sqliteRowsForScope, if_neg hs, sqliteRowsForScope, if_neg hs, ih]

theorem sqliteRows_append_single (db : SqliteDB) (s1 s2 : String)
    (n d : GoStr) (hne : s1 ≠ s2) :
    sqliteRowsForScope (db ++ [(s1, n, d)]) s2 = sqliteRowsForScope db s2 := by
  induction db with
  | nil => simp [sqliteRowsForScope, hne]
  | cons r rest ih =>
    obtain ⟨s, nn, dd⟩ := r
    by_cases hs : s = s2 <;> simp [sqliteRowsForScope, hs, ih]

theorem sqliteRows_write_ne (db : SqliteDB) (s1 s2 : String) (n d : GoStr)
    (hne : s1 ≠ s2) :
    sqliteRowsForScope (sqliteWrite db s1 n d) s2 = sqliteRowsForScope db s2 := by
  rw [sqliteWrite]
  split
  · exact sqliteRows_map_upsert db s1 s2 n d hne
  · exact sqliteRows_append_single db s1 s2 n d hne

theorem sqliteRows_remove_ne (db : SqliteDB) (s1 s2 : String) (n : GoStr)
    (hne : s1 ≠ s2) :
    sqliteRowsForScope (sqliteRemove db s1 n) s2 = sqliteRowsForScope db s2 := by
  induction db with
  | nil => rfl
  | cons r rest ih =>
    obtain ⟨s, nn, dd⟩ := r
    rw [sqliteRemove]
    by_cases hc : s = s1 ∧ nn = n
    · rw [if_pos hc]
      have hs2 : ¬ s = s2 := fun h => hne (hc.1.symm.trans h)
      rw [sqliteRowsForScope, if_neg hs2, ih]
    · rw [if_neg hc]
      by_cases hs : s = s2
      · rw [sqliteRowsForScope, if_pos hs, sqliteRowsForScope, if_pos hs, ih]
      · rw [sqliteRowsForScope, if_neg hs, sqliteRowsForScope, if_neg hs, ih]

theorem sqliteRows_delete_ne (db : SqliteDB) (s1 s2 : String) (n : GoStr)
    (hne : s1 ≠ s2) :
    sqliteRowsForScope ((sqliteDelete db s1 n).1) s2 = sqliteRowsForScope db s2 := by
  by_cases hlen : (sqliteRemove db s1 n).length = db.length
  · simp [sqliteDelete, hlen]
  · simp [sqliteDelete, hlen, sqliteRows_remove_ne db s1 s2 n hne]

theorem sqliteLookup_eq_rows (db : SqliteDB) (scope : String) (name : GoStr) :
    sqliteLookup db scope name
      = sqliteLookup (sqliteRowsForScope db scope) scope name := by
  induction db with
  | nil => rfl
  | cons r rest ih =>
    obtain ⟨s, nn, dd⟩ := r
    by_cases hs : s = scope
    · subst hs
      by_cases hn : nn = name
      · simp [sqliteLookup, sqliteRowsForScope, hn]
      · simp [sqliteLookup, sqliteRowsForScope, hn, ih]
    · simp [sqliteLookup, sqliteRowsForScope, hs, ih]

theorem boltGetBucket_setBucket_ne (db : BoltDB) (s1 s2 : String) (nb : Bucket)
    (hne : s1 ≠ s2) :
    boltGetBucket (boltSetBucket db s1 nb) s2 = boltGetBucket db s2 := by
  induction db with
  | nil => simp [boltSetBucket, boltGetBucket, hne]
  | cons p rest ih =>
    obtain ⟨s, b⟩ := p
    by_cases hs : s = s1
    · subst hs
      simp [boltSetBucket, boltGetBucket, hne]
    · simp [boltSetBucket, boltGetBucket, hs, ih]

theorem boltWrite_bucket_ne (db : BoltDB) (s1 s2 : String) (n d : GoStr)
    (hne : s1 ≠ s2) :
    boltGetBucket (boltWrite db s1 n d) s2 = boltGetBucket db s2 := by
  rw [boltWrite]
  exact boltGetBucket_setBucket_ne db s1 s2 _ hne

theorem boltDelete_bucket_ne (db : BoltDB) (s1 s2 : String) (n : GoStr)
    (hne : s1 ≠ s2) :
    boltGetBucket ((boltDelete db s1 n).1) s2 = boltGetBucket db s2 := by
  cases hb : boltGetBucket db s1 with
  | none => simp [boltDelete, hb]
  | some b =>
    cases hl : lookupName b n with
    | none => simp [boltDelete, hb, hl]
    | some v =>
      simp [boltDelete, hb, hl, boltGetBucket_setBucket_ne db s1 s2 _ hne]

theorem boltRead_congr (db1 db2 : BoltDB) (s : String) (q : GoStr)
    (h : boltGetBucket db1 s = boltGetBucket db2 s) :
    boltRead db1 s q = boltRead db2 s q := by
  rw [boltRead, boltRead, h]

theorem boltList_congr (db1 db2 : BoltDB) (s : String)
    (h : boltGetBucket db1 s = boltGetBucket db2 s) :
    boltList db1 s = boltList db2 s := by
  rw [boltList, boltList, h]

theorem sqliteRead_congr_rows (db1 db2 : SqliteDB) (s : String) (q : GoStr)
    (h : sqliteRowsForScope db1 s = sqliteRowsForScope db2 s) :
    sqliteRead db1 s q = sqliteRead db2 s q := by
  rw [sqliteRead, sqliteRead, sqliteLookup_eq_rows, h, ← sqliteLookup_eq_rows]

/-- C6: on a shared physical backend, writing or deleting any name through
the loader of one scope leaves every `List`, `Read` and store-level
`Unmarshal` result of a different scope unchanged, for both the SQLite and
the bbolt backend. -/
theorem scope_isolation (s1 s2 : String) (db : SqliteDB) (bdb : BoltDB)
    (n d q : GoStr) (hne : s1 ≠ s2) :
    sqliteList (sqliteWrite db s1 n d) s2 = sqliteList db s2 ∧
    sqliteRead (sqliteWrite db s1 n d) s2 q = sqliteRead db s2 q ∧
    sqliteList ((sqliteDelete db s1 n).1) s2 = sqliteList db s2 ∧
    sqliteRead ((sqliteDelete db s1 n).1) s2 q = sqliteRead db s2 q ∧
    boltList (boltWrite bdb s1 n d) s2 = boltList bdb s2 ∧
    boltRead (boltWrite bdb s1 n d) s2 q = boltRead bdb s2 q ∧
    boltList ((boltDelete bdb s1 n).1) s2 = boltList bdb s2 ∧
    boltRead ((boltDelete bdb s1 n).1) s2 q = boltRead bdb s2 q ∧
    (∀ (V : Type) (dec : GoStr → V → V × Option GoErr) (desc : Descriptor V)
        (v : V),
      boltStoreUnmarshal dec (boltWrite bdb s1 n d) s2 desc v
        = boltStoreUnmarshal dec bdb s2 desc v) ∧
    (∀ (V : Type) (dec : GoStr → V → V × Option GoErr) (v : V),
      sqliteStoreUnmarshal dec (sqliteWrite db s1 n d) s2 q v
        = sqliteStoreUnmarshal dec db s2 q v) := by
  have hw := sqliteRows_write_ne db s1 s2 n d hne
  have hd := sqliteRows_delete_ne db s1 s2 n hne
  have hbw := boltWrite_bucket_ne bdb s1 s2 n d hne
  have hbd := boltDelete_bucket_ne bdb s1 s2 n hne
  refine ⟨?_, ?_, ?_, ?_, ?_, ?_, ?_, ?_, ?_, ?_⟩
  · rw [sqliteList, sqliteList, hw]
  · exact sqliteRead_congr_rows _ _ _ _ hw
  · rw [sqliteList, sqliteList, hd]
  · exact sqliteRead_congr_rows _ _ _ _ hd
  · exact boltList_congr _ _ _ hbw
  · exact boltRead_congr _ _ _ _ hbw
  · exact boltList_congr _ _ _ hbd
  · exact boltRead_congr _ _ _ _ hbd
  · intro V dec desc v
    rw [boltStoreUnmarshal, boltStoreUnmarshal,
      boltRead_congr _ _ _ _ hbw]
  · intro V dec v
    rw [sqliteStoreUnmarshal, sqliteStoreUnmarshal,
      sqliteRead_congr_rows _ _ _ _ hw]

/-- C6 witness: scope isolation at a concrete shared database and bucket
file — a write and a delete under scope `"app/ns1"` leave the results of
scope `"app/ns2"` unchanged. -/
theorem scope_isolation_witness :
    ("app/ns1" : String) ≠ "app/ns2" ∧
    (sqliteList (sqliteWrite [("app/ns2", [107], [1])] "app/ns1" [107] [9])
        "app/ns2" = sqliteList [("app/ns2", [107], [1])] "app/ns2" ∧
     sqliteRead (sqliteWrite [("app/ns2", [107], [1])] "app/ns1" [107] [9])
        "app/ns2" [107] = sqliteRead [("app/ns2", [107], [1])] "app/ns2" [107]) ∧
    boltRead
        ((boltDelete [("app/ns2", [([107], [1])])] "app/ns1" [107]).1)
        "app/ns2" [107]
      = boltRead [("app/ns2", [([107], [1])])] "app/ns2" [107] := by
  have hne : ("app/ns1" : String) ≠ "app/ns2" := by decide
  have h := scope_isolation "app/ns1" "app/ns2" [("app/ns2", [107], [1])]
    [("app/ns2", [([107], [1])])] [107] [9] [107] hne
  exact ⟨hne, ⟨h.1, h.2.1⟩, h.2.2.2.2.2.2.2.1⟩

/-- C10: `DecodeKey` rewrites every well-formed `%XX` triplet, not only the
three escapes `EncodeKey` emits: `"%41"` decodes to `"A"` (65), `"%4a"` and
`"%4A"` both decode to `'J'` (74, lower- and uppercase hex digits), and
consequently `EncodeKey (DecodeKey s) ≠ s` for `s = "%41"`. -/
theorem decode_rewrites_any_hex_triplet :
    DecodeKey [37, 52, 49] = [65] ∧
    DecodeKey [37, 52, 97] = [74] ∧
    DecodeKey [37, 52, 65] = [74] ∧
    EncodeKey (DecodeKey [37, 52, 49]) ≠ [37, 52, 49] := by
  have h1 : DecodeKey [37, 52, 49] = [65] := by simp [DecodeKey.eq_def, fromHex]
  have h2 : DecodeKey [37, 52, 97] = [74] := by simp [DecodeKey.eq_def, fromHex]
  have h3 : DecodeKey [37, 52, 65] = [74] := by simp [DecodeKey.eq_def, fromHex]
  exact ⟨h1, h2, h3, by rw [h1]; decide⟩

/-- C8: an entry whose stored payload has zero length unmarshals without
error and leaves the destination value untouched — for `SimpleStore`,
`MultiFormat` (targeting that entry's format) and the bbolt store — so
"exists but empty" is distinguishable from the not-found error. -/
theorem empty_payload_unmarshal {σ V : Type} (sss : SimpleStore σ V)
    (ssm : MultiFormat σ V) (st : σ) (desc : Descriptor V)
    (m : FileMarshaller V) (k : GoStr) (v : V) (bdb : BoltDB) (scope : String)
    (dec : GoStr → V → V × Option GoErr) (bdesc : Descriptor V)
    (h1 : sss.loader.Read st (sss.pathForKey desc.keyOf) = .ok [])
    (h2 : ssm.loader.Read st (ssm.pathForKey k (some m)) = .ok [])
    (h3 : boltRead bdb scope bdesc.keyOf = .ok []) :
    sss.Unmarshal st desc v = (desc.keyOf, v, none) ∧
    ssm.Unmarshal st (.formatKey m k) v =
      (some (m, ssm.keyCodec.Decode
        (trimSuffix (ssm.pathForKey k (some m)) ([46] ++ m.Extension))),
       v, none) ∧
    boltStoreUnmarshal dec bdb scope bdesc v = (some bdesc.keyOf, v, none) := by
  refine ⟨?_, ?_, ?_⟩
  · simp [SimpleStore.Unmarshal, h1]
  · simp [MultiFormat.Unmarshal, MultiFormat.load, h2]
  · simp [boltStoreUnmarshal, h3]

/-- C8 witness: the empty-payload behavior at concrete stores — the
directory-loader states hold a zero-length `"k.b"` entry and the bbolt
bucket a zero-length `"k"` entry; each `Unmarshal` succeeds with the
destination `(3, 4)` unchanged. -/
theorem empty_payload_unmarshal_witness :
    dirLoader.Read [([107, 46, 98], [])] [107, 46, 98] = .ok [] ∧
    boltRead [("app", [([107], [])])] "app" [107] = .ok [] ∧
    ((SimpleStore.mk dirLoader marshallerOkB DefaultKeyCodec).Unmarshal
        [([107, 46, 98], [])] (.key [107]) ((3, 4) : Nat × Nat)
      = ([107], (3, 4), none)) ∧
    ((mfFixture.Unmarshal [([107, 46, 98], [])] (.formatKey marshallerOkB [107])
        ((3, 4) : Nat × Nat)).2 = ((3, 4), none)) ∧
    boltStoreUnmarshal (fun _ v => ((v.1 + 1, v.2), none)) [("app", [([107], [])])]
        "app" (.key [107]) ((3, 4) : Nat × Nat)
      = (some [107], (3, 4), none) := by
  have h1 : dirLoader.Read [([107, 46, 98], [])] [107, 46, 98] = .ok [] := rfl
  have h3 : boltRead [("app", [([107], [])])] "app" [107] = .ok [] := rfl
  have h :=
    empty_payload_unmarshal
      (SimpleStore.mk dirLoader marshallerOkB DefaultKeyCodec) mfFixture
      [([107, 46, 98], [])] (.key [107]) marshallerOkB [107]
      ((3, 4) : Nat × Nat) [("app", [([107], [])])] "app"
      (fun _ v => ((v.1 + 1, v.2), none)) (.key [107]) h1 h1 h3
  exact ⟨h1, h3, h.1, by rw [h.2.1], h.2.2⟩

theorem mfLoad_fst_of_read_ok {σ V : Type} (ss : MultiFormat σ V) (st : σ)
    (m : FileMarshaller V) (path : GoStr) (v : V) (data : GoStr)
    (h : ss.loader.Read st path = .ok data) :
    (ss.load st m path v).1 =
      some (m, ss.keyCodec.Decode (trimSuffix path ([46] ++ m.Extension))) := by
  simp only [MultiFormat.load, h]
  split <;> rfl

theorem mfLoad_of_read_error {σ V : Type} (ss : MultiFormat σ V) (st : σ)
    (m : FileMarshaller V) (path : GoStr) (v : V) (e : GoErr)
    (h : ss.loader.Read st path = .error e) :
    ss.load st m path v = (none, v, some e) := by
  simp only [MultiFormat.load, h]

theorem mfLoad_read_ok_of_no_err {σ V : Type} (ss : MultiFormat σ V) (st : σ)
    (m : FileMarshaller V) (path : GoStr) (v : V)
    (h : (ss.load st m path v).2.2 = none) :
    ∃ data, ss.loader.Read st path = .ok data := by
  cases hr : ss.loader.Read st path with
  | error e =>
    rw [mfLoad_of_read_error ss st m path v e hr] at h
    exact absurd h (by simp)
  | ok data => exact ⟨data, rfl⟩

theorem unmarshalLoop_first_ok {σ V : Type} (ss : MultiFormat σ V) (st : σ)
    (key : GoStr) (m : FileMarshaller V) (ms2 : List (FileMarshaller V)) :
    ∀ (ms1 : List (FileMarshaller V)) (v : V)
      (r0 : Option (FileMarshaller V × GoStr)) (e0 : Option GoErr),
    (∀ m' ∈ ms1, ∀ v' : V,
      (ss.load st m' (ss.pathForKey key (some m')) v').2.2 ≠ none) →
    (∀ v' : V, (ss.load st m (ss.pathForKey key (some m)) v').2.2 = none) →
    (ss.unmarshalLoop st key (ms1 ++ m :: ms2) v r0 e0).2.2 = none ∧
    (ss.unmarshalLoop st key (ms1 ++ m :: ms2) v r0 e0).1 =
      some (m, ss.keyCodec.Decode
        (trimSuffix (ss.pathForKey key (some m)) ([46] ++ m.Extension))) := by
  intro ms1
  induction ms1 with
  | nil =>
    intro v r0 e0 _ hk
    have hk' := hk v
    obtain ⟨data, hread⟩ := mfLoad_read_ok_of_no_err ss st m _ v hk'
    constructor
    · simp only [List.nil_append, MultiFormat.unmarshalLoop, hk']
    · simp only [List.nil_append, MultiFormat.unmarshalLoop, hk']
      exact mfLoad_fst_of_read_ok ss st m _ v data hread
  | cons mh rest ih =>
    intro v r0 e0 hf hk
    have hfail := hf mh (List.mem_cons_self mh rest) v
    rcases he : (ss.load st mh (ss.pathForKey key (some mh)) v).2.2 with _ | e
    · exact absurd he hfail
    · have hstep :
          ss.unmarshalLoop st key ((mh :: rest) ++ m :: ms2) v r0 e0
            = ss.unmarshalLoop st key (rest ++ m :: ms2)
                (ss.load st mh (ss.pathForKey key (some mh)) v).2.1
                (ss.load st mh (ss.pathForKey key (some mh)) v).1 (some e) := by
        simp only [List.cons_append, MultiFormat.unmarshalLoop, he]
        rfl
      rw [hstep]
      exact ih _ _ _ (fun mm hmm v' => hf mm (List.mem_cons_of_mem mh hmm) v') hk

theorem unmarshalLoop_all_read_error {σ V : Type} (ss : MultiFormat σ V)
    (st : σ) (key : GoStr) (mlast : FileMarshaller V)
    (E : FileMarshaller V → GoErr) :
    ∀ (ms1 : List (FileMarshaller V)) (v : V)
      (r0 : Option (FileMarshaller V × GoStr)) (e0 : Option GoErr),
    (∀ m' ∈ ms1 ++ [mlast],
      ss.loader.Read st (ss.pathForKey key (some m')) = .error (E m')) →
    ss.unmarshalLoop st key (ms1 ++ [mlast]) v r0 e0 = (none, v, some (E mlast)) := by
  intro ms1
  induction ms1 with
  | nil =>
    intro v r0 e0 h
    have hr := h mlast (by simp)
    have hl := mfLoad_of_read_error ss st mlast (ss.pathForKey key (some mlast))
      v (E mlast) hr
    simp only [List.nil_append, MultiFormat.unmarshalLoop, hl]
  | cons mh rest ih =>
    intro v r0 e0 h
    have hr := h mh (by simp)
    have hl := mfLoad_of_read_error ss st mh (ss.pathForKey key (some mh))
      v (E mh) hr
    simp only [List.cons_append, MultiFormat.unmarshalLoop, hl]
    exact ih v none (some (E mh)) (fun m' hm' => h m' (by simp [hm']))

/-- C1: `MultiFormat.Unmarshal` on a bare `Key` tries the marshallers in
list order: if every marshaller of a prefix fails to load (whatever the
destination state) and the next one loads, the call succeeds and returns
that marshaller's entry — so the earliest-listed format wins regardless of
which entry was written most recently — and if no format's entry exists
(every read fails), the error of the last marshaller in the list is
returned with the destination untouched. -/
theorem mf_unmarshal_key_order {σ V : Type} (ss : MultiFormat σ V) (st : σ)
    (key : GoStr) (v : V) :
    (∀ (ms1 ms2 : List (FileMarshaller V)) (m : FileMarshaller V),
      ss.marshaller = ms1 ++ m :: ms2 →
      (∀ m' ∈ ms1, ∀ v' : V,
        (ss.load st m' (ss.pathForKey key (some m')) v').2.2 ≠ none) →
      (∀ v' : V, (ss.load st m (ss.pathForKey key (some m)) v').2.2 = none) →
      (ss.Unmarshal st (.key key) v).2.2 = none ∧
      (ss.Unmarshal st (.key key) v).1 =
        some (m, ss.keyCodec.Decode
          (trimSuffix (ss.pathForKey key (some m)) ([46] ++ m.Extension)))) ∧
    (∀ (ms1 : List (FileMarshaller V)) (mlast : FileMarshaller V)
        (E : FileMarshaller V → GoErr),
      ss.marshaller = ms1 ++ [mlast] →
      (∀ m' ∈ ms1 ++ [mlast],
        ss.loader.Read st (ss.pathForKey key (some m')) = .error (E m')) →
      ss.Unmarshal st (.key key) v = (none, v, some (E mlast))) := by
  constructor
  · intro ms1 ms2 m hms hf hk
    have h := unmarshalLoop_first_ok ss st key m ms2 ms1 v none none hf hk
    constructor
    · simpa only [MultiFormat.Unmarshal, hms] using h.1
    · simpa only [MultiFormat.Unmarshal, hms] using h.2
  · intro ms1 mlast E hms h
    have hl := unmarshalLoop_all_read_error ss st key mlast E ms1 v none none h
    simpa only [MultiFormat.Unmarshal, hms] using hl

/-- C1 witness: over the backend state holding only the `"k.b"` entry, the
`"a"` format's load fails and the `"b"` format wins; over the empty backend
state both reads fail with not-found and the last marshaller's error is
returned with the destination `(0, 0)` untouched. -/
theorem mf_unmarshal_key_order_witness :
    (mfFixture.Unmarshal stB (.key [107]) ((0, 0) : Nat × Nat)).2.2 = none ∧
    (mfFixture.Unmarshal stB (.key [107]) ((0, 0) : Nat × Nat)).1 =
      some (marshallerOkB, [107]) ∧
    mfFixture.Unmarshal [] (.key [107]) ((0, 0) : Nat × Nat) =
      (none, (0, 0), some .notExist) := by
  have hload :
      ∀ v' : Nat × Nat,
        mfFixture.load stB marshallerFailA
          (mfFixture.pathForKey [107] (some marshallerFailA)) v'
          = (none, v', some .notExist) :=
    fun v' => rfl
  have hf : ∀ m' ∈ [marshallerFailA], ∀ v' : Nat × Nat,
      (mfFixture.load stB m' (mfFixture.pathForKey [107] (some m')) v').2.2
        ≠ none := by
    intro m' hm' v'
    have hm : m' = marshallerFailA := by simpa using hm'
    subst hm
    rw [hload v']
    simp
  have hk : ∀ v' : Nat × Nat,
      (mfFixture.load stB marshallerOkB
        (mfFixture.pathForKey [107] (some marshallerOkB)) v').2.2 = none :=
    fun v' => rfl
  have h := mf_unmarshal_key_order mfFixture stB [107] ((0, 0) : Nat × Nat)
  have hA := h.1 [marshallerFailA] [] marshallerOkB rfl hf hk
  have hcomp : mfFixture.keyCodec.Decode
      (trimSuffix (mfFixture.pathForKey [107] (some marshallerOkB))
        ([46] ++ marshallerOkB.Extension)) = [107] := by
    show DecodeKey (trimSuffix (mfFixture.pathForKey [107] (some marshallerOkB))
      ([46] ++ marshallerOkB.Extension)) = [107]
    rw [show trimSuffix (mfFixture.pathForKey [107] (some marshallerOkB))
      ([46] ++ marshallerOkB.Extension) = [107] from rfl]
    simp [DecodeKey.eq_def]
  have hreads : ∀ m' ∈ [marshallerFailA] ++ [marshallerOkB],
      mfFixture.loader.Read ([] : StoreMap)
        (mfFixture.pathForKey [107] (some m')) = .error .notExist := by
    intro m' hm'
    rcases (by simpa using hm' : m' = marshallerFailA ∨ m' = marshallerOkB)
      with hm | hm <;> subst hm <;> rfl
  have hB := (mf_unmarshal_key_order mfFixture ([] : StoreMap) [107]
    ((0, 0) : Nat × Nat)).2 [marshallerFailA] marshallerOkB (fun _ => .notExist)
    rfl hreads
  refine ⟨hA.1, ?_, hB⟩
  rw [hA.2, hcomp]

/-- C9 counterexample: over the state holding non-empty `"k.a"` and `"k.b"`
entries, `Unmarshal (Key "k")` on the destination `(0, 0)` first runs the
failing `"a"` decoder, which writes `5` into the first component before
erroring, then falls through to `"b"`, which sets the second component to
`7` and succeeds. The final destination is `(5, 7)`: the failed decode's
partial write persists; discarding it, as the claim states, would give
`(0, 7)` — the result of the `"b"` decoder alone on the untouched
destination. -/
theorem mf_unmarshal_partial_write_counterexample :
    (mfFixture.Unmarshal stAB (.key [107]) ((0, 0) : Nat × Nat)).2
      = ((5, 7), none) ∧
    (marshallerOkB.Unmarshal [2] ((0, 0) : Nat × Nat)).1 = (0, 7) ∧
    ((5, 7) : Nat × Nat) ≠ (0, 7) :=
  ⟨rfl, rfl, by decide⟩

/-- C9 (amended): when the earliest-listed format's entry exists but its
decoder fails — a serialization error, not only not-found — `Unmarshal`
falls through to the next marshaller; when that one loads, the call
succeeds, the earlier decode error is silently discarded, and the final
destination is the later decoder's result applied to the destination as
mutated by the failed decode (partial writes are not rolled back). -/
theorem mf_unmarshal_decode_fallthrough {σ V : Type} (ss : MultiFormat σ V)
    (st : σ) (key : GoStr) (m1 m2 : FileMarshaller V)
    (rest : List (FileMarshaller V)) (v : V) (data1 : GoStr)
    (hms : ss.marshaller = m1 :: m2 :: rest)
    (hr1 : ss.loader.Read st (ss.pathForKey key (some m1)) = .ok data1)
    (hd1 : data1.length ≠ 0)
    (hfail1 : ∀ v' : V, (m1.Unmarshal data1 v').2 ≠ none)
    (hok2 : ∀ v' : V,
      (ss.load st m2 (ss.pathForKey key (some m2)) v').2.2 = none) :
    (ss.Unmarshal st (.key key) v).2.2 = none ∧
    (ss.Unmarshal st (.key key) v).1 =
      (ss.load st m2 (ss.pathForKey key (some m2))
        ((m1.Unmarshal data1 v).1)).1 ∧
    (ss.Unmarshal st (.key key) v).2.1 =
      (ss.load st m2 (ss.pathForKey key (some m2))
        ((m1.Unmarshal data1 v).1)).2.1 := by
  have hload1 : ss.load st m1 (ss.pathForKey key (some m1)) v =
      (some (m1, ss.keyCodec.Decode (trimSuffix (ss.pathForKey key (some m1))
          ([46] ++ m1.Extension))),
       (m1.Unmarshal data1 v).1, (m1.Unmarshal data1 v).2) := by
    simp only [MultiFormat.load, hr1, if_neg hd1]
  rcases he : (m1.Unmarshal data1 v).2 with _ | e
  · exact absurd he (hfail1 v)
  · have hl2 := hok2 ((m1.Unmarshal data1 v).1)
    have hfull : ss.Unmarshal st (.key key) v =
        ((ss.load st m2 (ss.pathForKey key (some m2))
            ((m1.Unmarshal data1 v).1)).1,
         (ss.load st m2 (ss.pathForKey key (some m2))
            ((m1.Unmarshal data1 v).1)).2.1,
         none) := by
      simp only [MultiFormat.Unmarshal, hms, MultiFormat.unmarshalLoop, hload1,
        he, hl2]
    rw [hfull]
    exact ⟨rfl, rfl, rfl⟩

/-- C9 witness: the amended fall-through behavior at the concrete
two-format store over the state holding non-empty entries for both
formats. -/
theorem mf_unmarshal_decode_fallthrough_witness :
    (mfFixture.Unmarshal stAB (.key [107]) ((0, 0) : Nat × Nat)).2.2 = none ∧
    (mfFixture.Unmarshal stAB (.key [107]) ((0, 0) : Nat × Nat)).2.1 =
      (mfFixture.load stAB marshallerOkB
        (mfFixture.pathForKey [107] (some marshallerOkB))
        ((marshallerFailA.Unmarshal [1] ((0, 0) : Nat × Nat)).1)).2.1 := by
  have h := mf_unmarshal_decode_fallthrough mfFixture stAB [107]
    marshallerFailA marshallerOkB [] ((0, 0) : Nat × Nat) [1] rfl rfl
    (by decide) (fun _ h => Option.noConfusion h) (fun _ => rfl)
  exact ⟨h.1, h.2.2⟩

theorem lookupName_eraseName_self (st : StoreMap) (n : GoStr) :
    lookupName (eraseName st n) n = none := by
  induction st with
  | nil => rfl
  | cons e rest ih =>
    obtain ⟨nn, d⟩ := e
    by_cases h : nn = n
    · rw [eraseName, if_pos h]
      exact ih
    · rw [eraseName, if_neg h, lookupName, if_neg h]
      exact ih

theorem lookupName_eraseName_ne (st : StoreMap) (n q : GoStr) (h : q ≠ n) :
    lookupName (eraseName st n) q = lookupName st q := by
  induction st with
  | nil => rfl
  | cons e rest ih =>
    obtain ⟨nn, d⟩ := e
    by_cases hn : nn = n
    · have hnq : ¬ nn = q := by
        rw [hn]
        exact fun hh => h hh.symm
      rw [eraseName, if_pos hn, lookupName, if_neg hnq, ih]
    · by_cases hq : nn = q
      · rw [eraseName, if_neg hn, lookupName, if_pos hq, lookupName, if_pos hq]
      · rw [eraseName, if_neg hn, lookupName, if_neg hq, lookupName, if_neg hq,
          ih]

theorem lookupName_none_eraseName (st : StoreMap) (n q : GoStr)
    (h : lookupName st q = none) : lookupName (eraseName st n) q = none := by
  by_cases hq : q = n
  · rw [hq]
    exact lookupName_eraseName_self st n
  · rw [lookupName_eraseName_ne st n q hq]
    exact h

theorem dirLoader_delete_present (st : StoreMap) (name d : GoStr)
    (h : lookupName st name = some d) :
    dirLoader.Delete st name = (eraseName st name, none) := by
  simp only [dirLoader, h]

theorem dirLoader_delete_absent (st : StoreMap) (name : GoStr)
    (h : lookupName st name = none) :
    dirLoader.Delete st name = (st, some .notExist) := by
  simp only [dirLoader, h]

theorem dirDeleteLoop_errors {V : Type} (cod : KeyCodec)
    (ms : List (FileMarshaller V)) (k : GoStr) :
    ∀ (ms' : List (FileMarshaller V)) (st : StoreMap),
    (((⟨dirLoader, ms, cod⟩ : MultiFormat StoreMap V).deleteLoop k ms' st)).2.2
      = [] := by
  intro ms'
  induction ms' with
  | nil => intro st; rfl
  | cons m rest ih =>
    intro st
    rcases hl : lookupName st
        ((⟨dirLoader, ms, cod⟩ : MultiFormat StoreMap V).pathForKey k (some m))
      with _ | dd
    · have hdel := dirLoader_delete_absent st _ hl
      simp [MultiFormat.deleteLoop, hdel, GoErr.isNotExist, ih st]
    · have hdel := dirLoader_delete_present st _ dd hl
      simp [MultiFormat.deleteLoop, hdel, ih]

theorem dirDeleteLoop_count_le {V : Type} (cod : KeyCodec)
    (ms : List (FileMarshaller V)) (k : GoStr) :
    ∀ (ms' : List (FileMarshaller V)) (st : StoreMap),
    (((⟨dirLoader, ms, cod⟩ : MultiFormat StoreMap V).deleteLoop k ms' st)).2.1
      ≤ ms'.length := by
  intro ms'
  induction ms' with
  | nil => intro st; exact Nat.le_refl 0
  | cons m rest ih =>
    intro st
    rcases hl : lookupName st
        ((⟨dirLoader, ms, cod⟩ : MultiFormat StoreMap V).pathForKey k (some m))
      with _ | dd
    · have hdel := dirLoader_delete_absent st _ hl
      simp only [MultiFormat.deleteLoop, hdel, GoErr.isNotExist, if_true,
        List.length_cons]
      exact Nat.succ_le_succ (ih st)
    · have hdel := dirLoader_delete_present st _ dd hl
      simp only [MultiFormat.deleteLoop, hdel, List.length_cons]
      exact Nat.le_succ_of_le (ih _)

theorem dirDeleteLoop_all_absent {V : Type} (cod : KeyCodec)
    (ms : List (FileMarshaller V)) (k : GoStr) :
    ∀ (ms' : List (FileMarshaller V)) (st : StoreMap),
    (∀ m ∈ ms', lookupName st
      ((⟨dirLoader, ms, cod⟩ : MultiFormat StoreMap V).pathForKey k (some m))
        = none) →
    (⟨dirLoader, ms, cod⟩ : MultiFormat StoreMap V).deleteLoop k ms' st
      = (st, ms'.length, []) := by
  intro ms'
  induction ms' with
  | nil => intro st _; rfl
  | cons m rest ih =>
    intro st h
    have hl := h m (List.mem_cons_self m rest)
    have hdel := dirLoader_delete_absent st _ hl
    have hrest := ih st (fun m' hm' => h m' (List.mem_cons_of_mem m hm'))
    simp [MultiFormat.deleteLoop, hdel, hrest, GoErr.isNotExist]

theorem dirDeleteLoop_count_eq {V : Type} (cod : KeyCodec)
    (ms : List (FileMarshaller V)) (k : GoStr) :
    ∀ (ms' : List (FileMarshaller V)) (st : StoreMap),
    (((⟨dirLoader, ms, cod⟩ : MultiFormat StoreMap V).deleteLoop k ms' st)).2.1
      = ms'.length →
    ∀ m ∈ ms', lookupName st
      ((⟨dirLoader, ms, cod⟩ : MultiFormat StoreMap V).pathForKey k (some m))
        = none := by
  intro ms'
  induction ms' with
  | nil => intro st _ m hm; cases hm
  | cons m rest ih =>
    intro st hcount
    rcases hl : lookupName st
        ((⟨dirLoader, ms, cod⟩ : MultiFormat StoreMap V).pathForKey k (some m))
      with _ | dd
    · have hdel := dirLoader_delete_absent st _ hl
      simp only [MultiFormat.deleteLoop, hdel, GoErr.isNotExist, if_true,
        List.length_cons] at hcount
      have hc' : (((⟨dirLoader, ms, cod⟩ :
          MultiFormat StoreMap V).deleteLoop k rest st)).2.1 = rest.length :=
        Nat.succ_injective hcount
      intro m' hm'
      rcases List.mem_cons.mp hm' with hm' | hm'
      · rw [hm']
        exact hl
      · exact ih st hc' m' hm'
    · have hdel := dirLoader_delete_present st _ dd hl
      simp only [MultiFormat.deleteLoop, hdel, List.length_cons] at hcount
      have hle := dirDeleteLoop_count_le cod ms k rest (eraseName st
        ((⟨dirLoader, ms, cod⟩ : MultiFormat StoreMap V).pathForKey k (some m)))
      rw [hcount] at hle
      exact absurd hle (by simp)

theorem dirDeleteLoop_lookup_none {V : Type} (cod : KeyCodec)
    (ms : List (FileMarshaller V)) (k : GoStr) :
    ∀ (ms' : List (FileMarshaller V)) (st : StoreMap) (q : GoStr),
    lookupName st q = none →
    lookupName
      ((((⟨dirLoader, ms, cod⟩ : MultiFormat StoreMap V).deleteLoop k ms' st)).1)
      q = none := by
  intro ms'
  induction ms' with
  | nil => intro st q h; exact h
  | cons m rest ih =>
    intro st q h
    rcases hl : lookupName st
        ((⟨dirLoader, ms, cod⟩ : MultiFormat StoreMap V).pathForKey k (some m))
      with _ | dd
    · have hdel := dirLoader_delete_absent st _ hl
      simp only [MultiFormat.deleteLoop, hdel, GoErr.isNotExist, if_true]
      exact ih st q h
    · have hdel := dirLoader_delete_present st _ dd hl
      simp only [MultiFormat.deleteLoop, hdel]
      exact ih _ q (lookupName_none_eraseName st _ q h)

theorem dirDeleteLoop_deletes_all {V : Type} (cod : KeyCodec)
    (ms : List (FileMarshaller V)) (k : GoStr) :
    ∀ (ms' : List (FileMarshaller V)) (st : StoreMap),
    ∀ m ∈ ms', lookupName
      ((((⟨dirLoader, ms, cod⟩ : MultiFormat StoreMap V).deleteLoop k ms' st)).1)
      ((⟨dirLoader, ms, cod⟩ : MultiFormat StoreMap V).pathForKey k (some m))
        = none := by
  intro ms'
  induction ms' with
  | nil => intro st m hm; cases hm
  | cons m rest ih =>
    intro st m' hm'
    rcases hl : lookupName st
        ((⟨dirLoader, ms, cod⟩ : MultiFormat StoreMap V).pathForKey k (some m))
      with _ | dd
    · have hdel := dirLoader_delete_absent st _ hl
      simp only [MultiFormat.deleteLoop, hdel, GoErr.isNotExist, if_true]
      rcases List.mem_cons.mp hm' with hmm | hmm
      · rw [hmm]
        exact dirDeleteLoop_lookup_none cod ms k rest st _ hl
      · exact ih st m' hmm
    · have hdel := dirLoader_delete_present st _ dd hl
      simp only [MultiFormat.deleteLoop, hdel]
      rcases List.mem_cons.mp hm' with hmm | hmm
      · rw [hmm]
        exact dirDeleteLoop_lookup_none cod ms k rest _ _
          (lookupName_eraseName_self st _)
      · exact ih _ m' hmm

theorem dirDeleteLoop_frame {V : Type} (cod : KeyCodec)
    (ms : List (FileMarshaller V)) (k : GoStr) :
    ∀ (ms' : List (FileMarshaller V)) (st : StoreMap) (q : GoStr),
    (∀ m ∈ ms', q ≠
      (⟨dirLoader, ms, cod⟩ : MultiFormat StoreMap V).pathForKey k (some m)) →
    lookupName
      ((((⟨dirLoader, ms, cod⟩ : MultiFormat StoreMap V).deleteLoop k ms' st)).1)
      q = lookupName st q := by
  intro ms'
  induction ms' with
  | nil => intro st q _; rfl
  | cons m rest ih =>
    intro st q hq
    have hrest := fun m' hm' => hq m' (List.mem_cons_of_mem m hm')
    rcases hl : lookupName st
        ((⟨dirLoader, ms, cod⟩ : MultiFormat StoreMap V).pathForKey k (some m))
      with _ | dd
    · have hdel := dirLoader_delete_absent st _ hl
      simp only [MultiFormat.deleteLoop, hdel, GoErr.isNotExist, if_true]
      exact ih st q hrest
    · have hdel := dirLoader_delete_present st _ dd hl
      simp only [MultiFormat.deleteLoop, hdel]
      rw [ih _ q hrest]
      exact lookupName_eraseName_ne st _ q (hq m (List.mem_cons_self m rest))

/-- C3: `MultiFormat.Delete` on a bare `Key` over the directory-style
loader attempts to delete the entry for every configured marshaller's
extension — every format's entry is gone afterwards and no other entry
changes; it succeeds when at least one entry existed (not-found for the
remaining formats is tolerated); it returns the not-found sentinel exactly
when all attempted deletions report not-found; and, over a loader whose
deletions can fail for other reasons, the non-not-found errors are
aggregated into one multi-error wrapping each offending name while a
subset's not-found is still tolerated. -/
theorem mf_delete_key_semantics {V : Type} (cod : KeyCodec)
    (ms : List (FileMarshaller V)) (st : StoreMap) (k : GoStr) :
    (∀ m ∈ ms, lookupName
      (((⟨dirLoader, ms, cod⟩ : MultiFormat StoreMap V).Delete st (.key k)).1)
      ((⟨dirLoader, ms, cod⟩ : MultiFormat StoreMap V).pathForKey k (some m))
        = none) ∧
    (∀ q : GoStr,
      (∀ m ∈ ms, q ≠
        (⟨dirLoader, ms, cod⟩ : MultiFormat StoreMap V).pathForKey k (some m)) →
      lookupName
        (((⟨dirLoader, ms, cod⟩ : MultiFormat StoreMap V).Delete st (.key k)).1)
        q = lookupName st q) ∧
    ((∃ m ∈ ms, lookupName st
        ((⟨dirLoader, ms, cod⟩ : MultiFormat StoreMap V).pathForKey k (some m))
          ≠ none) →
      ((⟨dirLoader, ms, cod⟩ : MultiFormat StoreMap V).Delete st (.key k)).2
        = none) ∧
    (((⟨dirLoader, ms, cod⟩ : MultiFormat StoreMap V).Delete st (.key k)).2
        = some .notExist ↔
      ∀ m ∈ ms, lookupName st
        ((⟨dirLoader, ms, cod⟩ : MultiFormat StoreMap V).pathForKey k (some m))
          = none) ∧
    (mfFlaky.Delete () (.key [107])).2 =
      some (.multi [.wrapped [107, 46, 97] (.backend 1)]) := by
  have hd1 : ((⟨dirLoader, ms, cod⟩ : MultiFormat StoreMap V).Delete st
      (.key k)).1 =
      (((⟨dirLoader, ms, cod⟩ : MultiFormat StoreMap V).deleteLoop k ms st)).1 :=
    rfl
  have hd2 : ((⟨dirLoader, ms, cod⟩ : MultiFormat StoreMap V).Delete st
      (.key k)).2 =
      (if (((⟨dirLoader, ms, cod⟩ :
            MultiFormat StoreMap V).deleteLoop k ms st)).2.1 = ms.length
       then some .notExist
       else multierrorNew
         ((((⟨dirLoader, ms, cod⟩ :
            MultiFormat StoreMap V).deleteLoop k ms st)).2.2)) := rfl
  refine ⟨?_, ?_, ?_, ?_, rfl⟩
  · intro m hm
    rw [hd1]
    exact dirDeleteLoop_deletes_all cod ms k ms st m hm
  · intro q hq
    rw [hd1]
    exact dirDeleteLoop_frame cod ms k ms st q hq
  · rintro ⟨m, hm, hlook⟩
    have hn : (((⟨dirLoader, ms, cod⟩ :
        MultiFormat StoreMap V).deleteLoop k ms st)).2.1 ≠ ms.length :=
      fun hEq => hlook (dirDeleteLoop_count_eq cod ms k ms st hEq m hm)
    rw [hd2, if_neg hn, dirDeleteLoop_errors cod ms k ms st]
    rfl
  · constructor
    · intro h
      by_cases hn : (((⟨dirLoader, ms, cod⟩ :
          MultiFormat StoreMap V).deleteLoop k ms st)).2.1 = ms.length
      · exact dirDeleteLoop_count_eq cod ms k ms st hn
      · rw [hd2, if_neg hn, dirDeleteLoop_errors cod ms k ms st] at h
        cases h
    · intro h
      have hloop := dirDeleteLoop_all_absent cod ms k ms st h
      rw [hd2, hloop]
      simp

/-- C3 witness: the delete semantics at concrete inputs — over the state
holding `"k.a"` and `"k.b"`, deleting `Key "k"` removes both entries,
leaves an unrelated name untouched and succeeds; over the empty state the
call returns the not-found sentinel. -/
theorem mf_delete_key_semantics_witness :
    lookupName (((⟨dirLoader, [marshallerFailA, marshallerOkB],
        DefaultKeyCodec⟩ : MultiFormat StoreMap (Nat × Nat)).Delete stAB
          (.key [107])).1) [107, 46, 97] = none ∧
    lookupName (((⟨dirLoader, [marshallerFailA, marshallerOkB],
        DefaultKeyCodec⟩ : MultiFormat StoreMap (Nat × Nat)).Delete stAB
          (.key [107])).1) [120] = lookupName stAB [120] ∧
    ((⟨dirLoader, [marshallerFailA, marshallerOkB], DefaultKeyCodec⟩ :
        MultiFormat StoreMap (Nat × Nat)).Delete stAB (.key [107])).2
      = none ∧
    ((⟨dirLoader, [marshallerFailA, marshallerOkB], DefaultKeyCodec⟩ :
        MultiFormat StoreMap (Nat × Nat)).Delete [] (.key [107])).2
      = some .notExist := by
  have h := mf_delete_key_semantics DefaultKeyCodec
    [marshallerFailA, marshallerOkB] stAB [107]
  have hempty := mf_delete_key_semantics DefaultKeyCodec
    [marshallerFailA, marshallerOkB] ([] : StoreMap) [107]
  refine ⟨?_, ?_, ?_, ?_⟩
  · have := h.1 marshallerFailA (by simp)
    rwa [show (⟨dirLoader, [marshallerFailA, marshallerOkB], DefaultKeyCodec⟩ :
      MultiFormat StoreMap (Nat × Nat)).pathForKey [107] (some marshallerFailA)
        = [107, 46, 97] from rfl] at this
  · refine h.2.1 [120] ?_
    intro m hm
    rcases (by simpa using hm : m = marshallerFailA ∨ m = marshallerOkB)
      with hm' | hm' <;> subst hm' <;> decide
  · refine h.2.2.1 ⟨marshallerFailA, by simp, ?_⟩
    rw [show (⟨dirLoader, [marshallerFailA, marshallerOkB], DefaultKeyCodec⟩ :
      MultiFormat StoreMap (Nat × Nat)).pathForKey [107] (some marshallerFailA)
        = [107, 46, 97] from rfl]
    decide
  · refine hempty.2.2.2.1.mpr ?_
    intro m hm
    rcases (by simpa using hm : m = marshallerFailA ∨ m = marshallerOkB)
      with hm' | hm' <;> subst hm' <;> rfl

end Enkit
